import Mathlib

/-!
Verification of the pitivi render / timeline UI core.

This file gives a shallow embedding of the logic in `pitivi/render.py` and
`pitivi/timeline/timeline.py` and proves properties about it.

Conventions of the embedding:
* GStreamer capability sets (`Gst.Caps`) are modelled as finite lists of
  abstract atoms (`Nat`); the only operations the code uses are
  `intersect` and `is_empty`, modelled set-theoretically.
* `Gst.ElementFactory` is modelled by its name, long name, rank and its
  static pad templates (direction plus caps).
* Python dictionaries are modelled by association lists; object identity
  is modelled by numeric ids.
-/

set_option maxRecDepth 4000

/-- A `Gst.Caps` capability set: a finite set of abstract media-type atoms. -/
structure Caps where
  atoms : List Nat
deriving DecidableEq, Repr

/-- `Gst.Caps.intersect`: the common part of two capability sets. -/
def Caps.intersect (a b : Caps) : Caps :=
  ⟨a.atoms.filter (fun x => b.atoms.contains x)⟩

/-- `Gst.Caps.is_empty`. -/
def Caps.isEmpty (c : Caps) : Bool :=
  c.atoms.isEmpty

/-- A `Gst.PadDirection`: only SRC and SINK are used by the code. -/
inductive PadDirection where
  | src
  | sink
deriving DecidableEq, Repr

/-- A static pad template: direction plus the caps it accepts/produces. -/
structure PadTemplate where
  direction : PadDirection
  caps : Caps
deriving DecidableEq, Repr

/-- A `Gst.ElementFactory` as used by `render.py`: name, long name, rank and
static pad templates. -/
structure ElementFactory where
  name : String
  longname : String
  rank : Nat
  templates : List PadTemplate
deriving DecidableEq, Repr

/-- The caps of the sink pad templates of a factory, in template order.
This is the list `[x.get_caps() for x in muxer.get_static_pad_templates()
if x.direction == Gst.PadDirection.SINK]` computed in
`encoders_muxer_compatible` (render.py line 215). -/
def sinkTemplateCaps (muxer : ElementFactory) : List Caps :=
  (muxer.templates.filter (fun x => x.direction = PadDirection.sink)).map (fun x => x.caps)

/-- `my_can_sink_caps(muxer, ocaps, muxsinkcaps)` (render.py lines 117-132):
true when the given caps intersect some of the muxer's sink pad templates'
caps.  When `muxsinkcaps` is non-empty it is used as a cache ("fast
version"), otherwise the muxer's sink templates are consulted directly. -/
def my_can_sink_caps (muxer : ElementFactory) (ocaps : Caps) (muxsinkcaps : List Caps) : Bool :=
  if muxsinkcaps ≠ [] then
    muxsinkcaps.any (fun c => ¬(c.intersect ocaps).isEmpty)
  else
    muxer.templates.any
      (fun x => x.direction = PadDirection.sink ∧ ¬((x.caps.intersect ocaps).isEmpty))

/-- `encoders_muxer_compatible(encoders, muxer, muxsinkcaps)` (render.py
lines 211-222): the encoders, in input order, having some SRC pad template
whose caps can sink into the muxer.  `muxsinkcaps0` plays the role of the
optional `muxsinkcaps=[]` argument. -/
def encoders_muxer_compatible (encoders : List ElementFactory) (muxer : ElementFactory)
    (muxsinkcaps0 : List Caps) : List ElementFactory :=
  let muxsinkcaps := if muxsinkcaps0 = [] then sinkTemplateCaps muxer else muxsinkcaps0
  encoders.filter (fun encoder =>
    encoder.templates.any (fun tpl =>
      tpl.direction = PadDirection.src ∧ my_can_sink_caps muxer tpl.caps muxsinkcaps))

/-- `available_combinations()` (render.py lines 239-264), with the three
registry classification lists passed explicitly (they come from the cached
registry snapshot).  Returns `(containers, audio, video)`: the muxers having
both a compatible audio and a compatible video encoder, and the two maps
(modelled as association lists keyed by muxer name). -/
def available_combinations (aencoders vencoders muxers : List ElementFactory) :
    List ElementFactory × List (String × List ElementFactory) × List (String × List ElementFactory) :=
  muxers.foldl
    (fun acc muxer =>
      let aencs := encoders_muxer_compatible aencoders muxer []
      let vencs := encoders_muxer_compatible vencoders muxer []
      if aencs ≠ [] ∧ vencs ≠ [] then
        (acc.1 ++ [muxer], acc.2.1 ++ [(muxer.name, aencs)], acc.2.2 ++ [(muxer.name, vencs)])
      else acc)
    ([], [], [])

/-- The clean compatibility predicate of the spec: the encoder has at least
one SRC capability set with non-empty intersection with at least one of the
muxer's SINK capability sets. -/
def compatibleWithMuxer (muxer encoder : ElementFactory) : Bool :=
  encoder.templates.any (fun tpl =>
    tpl.direction = PadDirection.src ∧
      (sinkTemplateCaps muxer).any (fun c => ¬(c.intersect tpl.caps).isEmpty))

/-! ### beautify_factoryname (render.py lines 267-284) -/

/-- Python `list.startswith`-style check on character lists. -/
def leadsWith : List Char → List Char → Bool
  | [], _ => true
  | _ :: _, [] => false
  | p :: ps, c :: cs => p = c && leadsWith ps cs

/-- One left-to-right, non-overlapping replacement pass over a character
list, with fuel for termination (the fuel is always at least the length of
the string, which suffices since every step consumes a character). -/
def replaceChars (pat rep : List Char) : Nat → List Char → List Char
  | _, [] => []
  | 0, s => s
  | fuel + 1, c :: cs =>
    if leadsWith pat (c :: cs) then
      rep ++ replaceChars pat rep fuel ((c :: cs).drop pat.length)
    else
      c :: replaceChars pat rep fuel cs

/-- Python `str.replace(pat, rep)`: replaces every (non-overlapping,
leftmost-first) occurrence.  Empty patterns do not occur in the source. -/
def pyReplace (s pat rep : String) : String :=
  if pat.data = [] then s else String.mk (replaceChars pat.data rep.data s.data.length s.data)

/-- The empty string. -/
def emptyString : String := ""

/-- Python `str.split()` with no argument: the maximal runs of
non-whitespace characters, empty runs discarded. -/
def pySplitWs : List Char → List Char → List (List Char)
  | [], acc => if acc = [] then [] else [acc.reverse]
  | c :: cs, acc =>
    if c.isWhitespace then
      if acc = [] then pySplitWs cs [] else acc.reverse :: pySplitWs cs []
    else
      pySplitWs cs (c :: acc)

/-- Python `" ".join(words)`. -/
def joinWithSpace : List (List Char) → List Char
  | [] => []
  | [w] => w
  | w :: ws => w ++ ' ' :: joinWithSpace ws

/-- `beautify_factoryname(factory)` (render.py lines 267-284) as a function
of the factory's long name: apply the fixed removals, then the fixed
replacements, then collapse whitespace (`" ".join(name.split())`). -/
def beautify_factoryname (longname : String) : String :=
  let words_to_remove := ["Muxer", "muxer", "Encoder", "encoder",
    "format", "video", "audio", "instead",
    "Flash Video (FLV) /"]
  let words_to_replace := [("version ", "v"), ("Microsoft", "MS")]
  let name := words_to_remove.foldl (fun n w => pyReplace n w emptyString) longname
  let name := words_to_replace.foldl (fun n p => pyReplace n p.1 p.2) name
  String.mk (joinWithSpace (pySplitWs name.data []))

/-! ### RenderDialog._elementAddedCb (render.py lines 1047-1055) -/

/-- Python-style errors raised by modelled code. -/
inductive PyError where
  | keyError
  | typeError
  | unboundLocal
deriving DecidableEq, Repr

/-- `element.set_property(k, v)` on a property store modelled as an
association list: replace the binding if present, append otherwise. -/
def setProp : List (String × Int) → String → Int → List (String × Int)
  | [], k, v => [(k, v)]
  | kv :: rest, k, v => if kv.1 = k then (k, v) :: rest else kv :: setProp rest k v

/-- Python dictionary lookup `d[k]` on an association-list property store
(`none` models the `KeyError` case). -/
def lookupProp (props : List (String × Int)) (k : String) : Option Int :=
  match props.find? (fun kv => kv.1 = k) with
  | some kv => some kv.2
  | none => none

/-- The codec-settings part of `MultimediaSettings` used by
`_elementAddedCb`: the per-encoder property maps. -/
structure CodecSettings where
  vcodecsettings : List (String × Int)
  acodecsettings : List (String × Int)
deriving DecidableEq, Repr

/-- `RenderDialog._elementAddedCb` (render.py lines 1047-1055): when an
element is added to the encode bin, set the configured codec properties on
it.  The element's factory is compared first with the selected video
encoder, then with the selected audio encoder.  NOTE (faithful to the
source): the audio branch iterates over the keys of `acodecsettings` but
reads each value from `vcodecsettings` (line 1055); a key missing from
`vcodecsettings` raises `KeyError`. -/
def elementAddedCb (settings : CodecSettings) (videoFactory audioFactory factory : String)
    (element : List (String × Int)) : Except PyError (List (String × Int)) :=
  if factory = videoFactory then
    Except.ok (settings.vcodecsettings.foldl (fun el kv => setProp el kv.1 kv.2) element)
  else if factory = audioFactory then
    settings.acodecsettings.foldlM
      (fun el kv =>
        match lookupProp settings.vcodecsettings kv.1 with
        | some v => Except.ok (setProp el kv.1 v)
        | none => Except.error PyError.keyError)
      element
  else
    Except.ok element

/-! ## Timeline layout and viewport engine (`pitivi/timeline/timeline.py`)

Layers of the GES timeline are modelled by an id (object identity) and a
mutable integer priority.  `GES.Timeline.get_layers()` returns the layers
sorted by ascending priority (GES semantics; external to this repository),
modelled by an insertion sort. -/

/-- A `GES.Layer`: object identity plus its current priority. -/
structure Layer where
  id : Nat
  priority : Nat
deriving DecidableEq, Repr

/-- The priorities of the layers of a timeline state, in storage order. -/
def prios (st : List Layer) : List Nat :=
  st.map (fun l => l.priority)

/-- The ids of the layers of a timeline state, in storage order. -/
def layerIds (st : List Layer) : List Nat :=
  st.map (fun l => l.id)

/-- Mutate the layer object with the given id by `f` (object identity:
ids are unique, so this touches exactly one layer). -/
def applyToLayer (f : Layer → Layer) (lid : Nat) (st : List Layer) : List Layer :=
  st.map (fun l => if l.id = lid then f l else l)

/-- `layer.props.priority = p` on the layer with id `lid`. -/
def setPriority (st : List Layer) (lid p : Nat) : List Layer :=
  applyToLayer (fun l => { l with priority := p }) lid st

/-- `layer.get_priority()` for the layer with id `lid` (ids are unique;
the default is never used on well-formed states). -/
def getPriority (st : List Layer) (lid : Nat) : Nat :=
  match st.find? (fun l => l.id = lid) with
  | some l => l.priority
  | none => 0

/-- Insert a layer into a list sorted by ascending priority. -/
def insertByPrio (l : Layer) : List Layer → List Layer
  | [] => [l]
  | x :: xs => if l.priority < x.priority then l :: x :: xs else x :: insertByPrio l xs

/-- `GES.Timeline.get_layers()`: the layers sorted by ascending priority
(modelled by insertion sort; GES returns a priority-sorted copy). -/
def get_layers (st : List Layer) : List Layer :=
  st.foldr insertByPrio []

/-- The body of the first `for` loop of `ControlContainer.moveLayer`
(timeline.py lines 545-548): a layer object whose current priority `prio`
satisfies `target <= prio < priority` is moved to `prio + 1`. -/
def shiftUpLayer (target priority : Nat) (l : Layer) : Layer :=
  if target ≤ l.priority ∧ l.priority < priority then { l with priority := l.priority + 1 } else l

/-- The body of the second `for` loop of `ControlContainer.moveLayer`
(timeline.py lines 550-553): a layer object whose current priority `prio`
satisfies `priority < prio <= target` is moved to `prio - 1`. -/
def shiftDownLayer (target priority : Nat) (l : Layer) : Layer :=
  if priority < l.priority ∧ l.priority ≤ target then { l with priority := l.priority - 1 } else l

/-- Run one priority mutation per id in `ids`, recording the state after
every mutation step (the per-iteration trace of the `for` loop). -/
def runSteps (f : Layer → Layer) (st : List Layer) (ids : List Nat) :
    List Layer × List (List Layer) :=
  ids.foldl
    (fun acc lid =>
      let st' := applyToLayer f lid acc.1
      (st', acc.2 ++ [st']))
    (st, [])

/-- `ControlContainer.moveLayer(control, target)` (timeline.py lines
538-557), as a function of the timeline state, the moved layer's id and the
target priority.  Returns the final state together with the full list of
intermediate states (one entry per completed priority mutation, in order:
the sentinel assignment `priority = 999`, each loop-iteration mutation, and
the final `priority = target` assignment).  The `enable_update` toggles and
`_reorderLayerActors` do not touch layer priorities and are omitted. -/
def moveLayer (st : List Layer) (movedId target : Nat) :
    List Layer × List (List Layer) :=
  let priority := getPriority st movedId
  let s1 := setPriority st movedId 999
  let ids := layerIds (get_layers s1)
  let loopRes :=
    if target < priority then runSteps (shiftUpLayer target priority) s1 ids
    else if priority < target then runSteps (shiftDownLayer target priority) s1 ids
    else (s1, [])
  let s3 := setPriority loopRes.1 movedId target
  (s3, s1 :: loopRes.2 ++ [s3])

/-- Apply a sequence of reorder operations `(movedId, target)`, keeping only
the final states. -/
def applyMoves (st : List Layer) (ops : List (Nat × Nat)) : List Layer :=
  ops.foldl (fun s op => (moveLayer s op.1 op.2).1) st

/-- The permutation of priority values realised by a completed
`moveLayer` whose moved layer had priority `p` and target `t`:
`p` goes to `t`, the values strictly between are shifted by one towards
`p`, everything else is fixed. -/
def prioShift (t p x : Nat) : Nat :=
  if x = p then t
  else if t ≤ x ∧ x < p then x + 1
  else if p < x ∧ x ≤ t then x - 1
  else x

/-! ### TimelineStage.setTimeline (timeline.py lines 138-166) and signal wiring -/

/-- The backend `GES.Timeline` seen by the viewport: its object id, its
tracks' object ids and its layers' object ids. -/
structure BTimeline where
  id : Nat
  tracks : List Nat
  layers : List Nat
deriving DecidableEq, Repr

/-- A signal connection: the id of the object connected to, plus the signal
name.  A handler function is identified by its signal here, since
`TimelineStage` connects exactly one handler per (object, signal). -/
structure Conn where
  obj : Nat
  signal : String
deriving DecidableEq, Repr

/-- The six timeline-level signals connected by `setTimeline`
(timeline.py lines 159-164) and disconnected on rebind (lines 145-150). -/
def timelineSignals : List String :=
  ["track-added", "track-removed", "layer-added", "layer-removed",
    "snapping-started", "snapping-ended"]

/-- The two per-track signals connected by `_connectTrack`
(timeline.py lines 184-186). -/
def trackSignals : List String :=
  ["track-element-added", "track-element-removed"]

/-- The listener-related state of a `TimelineStage`: the bound timeline and
the set of live signal connections. -/
structure StageConnState where
  bTimeline : Option BTimeline
  conns : List Conn
deriving DecidableEq, Repr

/-- `TimelineStage._connectTrack(track)` (timeline.py lines 184-186). -/
def connectTrack (conns : List Conn) (track : Nat) : List Conn :=
  conns ++ trackSignals.map (fun s => ⟨track, s⟩)

/-- `TimelineStage.setTimeline(bTimeline)` (timeline.py lines 138-166): if a
timeline is already bound, disconnect the six timeline-level handlers from
it (`disconnect_by_func`, lines 145-150); then connect the per-track
handlers for every track of the NEW timeline and the six timeline-level
handlers on the new timeline.  (`_add_layer` only creates layer controls;
it registers no listener on the model.) -/
def setTimelineStage (st : StageConnState) (new : BTimeline) : StageConnState :=
  let conns1 :=
    match st.bTimeline with
    | some old => st.conns.filter (fun c => ¬(c.obj = old.id ∧ c.signal ∈ timelineSignals))
    | none => st.conns
  let conns2 := new.tracks.foldl connectTrack conns1
  let conns3 := conns2 ++ timelineSignals.map (fun s => ⟨new.id, s⟩)
  { bTimeline := some new, conns := conns3 }

/-! ### TimelineStage element add/remove (timeline.py lines 218-247) -/

/-- The four per-element property-change signals connected by
`_addTimelineElement` (timeline.py lines 226-229). -/
def elementSignals : List String :=
  ["notify::start", "notify::duration", "notify::in-point", "notify::priority"]

/-- The element-related state of a `TimelineStage`: the displayed proxies
(identified by the backing element's id) and the live per-element signal
connections. -/
structure StageElemState where
  elements : List Nat
  conns : List Conn
deriving DecidableEq, Repr

/-- `TimelineStage._addTimelineElement(track, bElement)` (timeline.py lines
218-237): connect the four property-change handlers on the element and
append its screen proxy.  (Proxy construction and x/y placement are UI
geometry, not modelled here.) -/
def addTimelineElement (st : StageElemState) (e : Nat) : StageElemState :=
  { elements := st.elements ++ [e],
    conns := st.conns ++ elementSignals.map (fun s => ⟨e, s⟩) }

/-- `bElement.disconnect_by_func(f)`: removes the connection, raising
`TypeError` when none is connected (PyGObject semantics). -/
def disconnectByFunc (conns : List Conn) (e : Nat) (s : String) :
    Except PyError (List Conn) :=
  if (Conn.mk e s) ∈ conns then Except.ok (conns.erase (Conn.mk e s))
  else Except.error PyError.typeError

/-- `TimelineStage._removeTimelineElement(track, bElement)` (timeline.py
lines 239-247), faithful to the source: disconnect the START, DURATION and
IN-POINT handlers (the PRIORITY handler connected at line 229 is NOT
disconnected); then scan `self.elements` for the proxy — Python's
`for ... break` leaves the loop variable at the LAST element when no proxy
matches, and unbound when the list is empty — and remove it. -/
def removeTimelineElement (st : StageElemState) (e : Nat) :
    Except PyError StageElemState := do
  let c1 ← disconnectByFunc st.conns e "notify::start"
  let c2 ← disconnectByFunc c1 e "notify::duration"
  let c3 ← disconnectByFunc c2 e "notify::in-point"
  match st.elements.getLast? with
  | none => Except.error PyError.unboundLocal
  | some lastEl =>
    let found :=
      match st.elements.find? (fun x => x = e) with
      | some x => x
      | none => lastEl
    Except.ok { elements := st.elements.erase found, conns := c3 }

/-! ### Zoom best fit (timeline.py lines 854-881) -/

/-- `Gst.SECOND` in nanoseconds. -/
def GST_SECOND : Nat := 1000000000

/-- Modelled from the spec: `Zoomable.computeZoomLevel(ratio)` (defined in
`pitivi/utils/timeline.py`, which is not part of the two source files).
The spec describes the best-fit computation as choosing "the largest
discrete zoom level whose ratio keeps duration * ratio <= viewport_width",
i.e. the largest level whose ratio does not exceed the ideal ratio,
"defaulting to level 0".  `ratios` is the discrete table of
pixels-per-second zoom ratios indexed by zoom level. -/
def computeZoomLevel (ratios : List ℚ) (ideal : ℚ) : Nat :=
  (List.range ratios.length).foldl
    (fun acc i => if ratios.getD i 0 ≤ ideal then i else acc) 0

/-- `Timeline._setBestZoomRatio()` (timeline.py lines 854-881) as a function
of the zoom table, the ruler width, the timeline duration (ns) and the
current zoom level.  Returns the zoom level in effect afterwards: when the
duration is 0 the method returns without touching the zoom level; otherwise
it rounds the duration up to whole seconds, computes the ideal
pixels-per-second ratio and sets the level given by `computeZoomLevel`. -/
def setBestZoomRatio (ratios : List ℚ) (rulerWidth : ℚ) (duration : Nat) (curLevel : Nat) : Nat :=
  if duration = 0 then curLevel
  else
    let timeline_duration := duration + GST_SECOND - 1
    let timeline_duration_s := timeline_duration / GST_SECOND
    let ideal_zoom_ratio := rulerWidth / (timeline_duration_s : ℚ)
    computeZoomLevel ratios ideal_zoom_ratio

/-! ### Horizontal scroll region (timeline.py lines 823-847) -/

/-- Modelled from the spec: `Zoomable.nsToPixel` (external to the two
source files); the spec defines `to_pixel(ns) = ns * zoom_ratio(level)`.
`ratio` is the current zoom ratio. -/
def nsToPixel (ratio : ℚ) (ns : Nat) : ℚ :=
  (ns : ℚ) * ratio

/-- `controls_width` as hardcoded in `updateHScrollAdjustments`
(timeline.py line 830; the widget query is commented out in the source). -/
def controls_width : ℚ := 0

/-- `scrollbar_width` as hardcoded in `updateHScrollAdjustments`
(timeline.py line 831). -/
def scrollbar_width : ℚ := 0

/-- `end_padding` (timeline.py line 835): space for clip insertion at the
end. -/
def end_padding : ℚ := 500

/-- The horizontal `Gtk.Adjustment` fields set by
`updateHScrollAdjustments`, plus the `zoomed_fitted` flag. -/
structure HAdjState where
  lower : ℚ
  upper : ℚ
  page_size : ℚ
  page_increment : ℚ
  step_increment : ℚ
  zoomed_fitted : Bool
deriving DecidableEq, Repr

/-- `Timeline.updateHScrollAdjustments()` (timeline.py lines 823-847) as a
function of the zoom ratio, the timeline duration, the embed widget width
and the previous `zoomed_fitted` flag.  It is called on every zoom change
(`zoomChanged`, line 821) and on every duration change
(`TimelineStage._updateSize`, line 277). -/
def updateHScrollAdjustments (ratio : ℚ) (duration : Nat) (timeline_ui_width : ℚ)
    (prevZoomedFitted : Bool) : HAdjState :=
  let contents_size := nsToPixel ratio duration
  let widgets_width := controls_width + scrollbar_width
  { lower := 0,
    upper := contents_size + widgets_width + end_padding,
    page_size := timeline_ui_width,
    page_increment := contents_size * (9 / 10),
    step_increment := contents_size * (1 / 10),
    zoomed_fitted :=
      if contents_size + widgets_width ≤ timeline_ui_width then true else prevZoomedFitted }

/-- `TimelineStage._updateSize` (timeline.py lines 272-277): the stage
width set from the duration at the current zoom. -/
def updateSizeWidth (ratio : ℚ) (duration : Nat) : ℚ :=
  nsToPixel ratio duration + 250

/-! ### Snapping indicator (timeline.py lines 317-330) -/

/-- The observable state of the snap indicator actor. -/
structure SnapIndicator where
  visible : Bool
  x : ℚ
  height : ℚ
deriving DecidableEq, Repr

/-- `TimelineStage._snapEndedCb` (timeline.py lines 329-330): hide the
indicator unconditionally. -/
def snapEndedCb (st : SnapIndicator) : SnapIndicator :=
  { st with visible := false }

/-- `TimelineStage._snapCb(timeline, obj1, obj2, position)` (timeline.py
lines 317-327): position 0 is forwarded to `_snapEndedCb`; otherwise the
indicator is placed at the position's pixel offset, sized to the current
content height and shown.  `rowSize` stands for
`EXPANDED_SIZE + SPACING` (UI constants external to the source files). -/
def snapCb (ratio rowSize : ℚ) (nLayers : Nat) (position : Nat) (st : SnapIndicator) :
    SnapIndicator :=
  if position = 0 then snapEndedCb st
  else
    { visible := true,
      x := nsToPixel ratio position,
      height := (nLayers : ℚ) * rowSize * 2 }

/-! ### Concrete fixtures used by witnesses and counterexamples -/

/-- An audio encoder whose single SRC template produces atom 1
("audio/x-raw"). -/
def encA : ElementFactory :=
  ⟨"aenc", "Audio encoder", 1, [⟨PadDirection.src, ⟨[1]⟩⟩]⟩

/-- A video encoder whose single SRC template produces atom 2
("video/x-raw"). -/
def encV : ElementFactory :=
  ⟨"venc", "Video encoder", 1, [⟨PadDirection.src, ⟨[2]⟩⟩]⟩

/-- A muxer accepting both atoms on its sink template. -/
def muxAV : ElementFactory :=
  ⟨"avmux", "AV muxer", 1, [⟨PadDirection.sink, ⟨[1, 2]⟩⟩]⟩

/-- A muxer whose sink template intersects nothing the encoders produce. -/
def muxBad : ElementFactory :=
  ⟨"badmux", "Incompatible muxer", 1, [⟨PadDirection.sink, ⟨[3]⟩⟩]⟩

/-- Codec settings where the audio and video maps bind the same property
name to different values. -/
def codecSettingsW : CodecSettings :=
  ⟨[("bitrate", 9000)], [("bitrate", 128)]⟩

/-- A first backend timeline (id 1) with one track (id 10). -/
def bT1 : BTimeline := ⟨1, [10], []⟩

/-- A second backend timeline (id 2) with one track (id 20). -/
def bT2 : BTimeline := ⟨2, [20], []⟩

/-- A freshly constructed `TimelineStage`: nothing bound, no connections. -/
def stage0 : StageConnState := ⟨none, []⟩

/-- A zoom-ratio table used by the best-fit witness. -/
def ratiosW : List ℚ := [1, 2, 5]

/-! ## Theorems -/

/-- Claim C7: for every timeline duration and zoom level, the scrollable
width recomputed on duration or zoom change equals
`to_pixel(total_duration) + control_panel_width + end_padding` (with the
control-panel and scrollbar width terms as hardcoded by the source,
namely 0). -/
theorem C7_scrollable_width (ratio : ℚ) (duration : Nat) (timeline_ui_width : ℚ)
    (prevZoomedFitted : Bool) :
    (updateHScrollAdjustments ratio duration timeline_ui_width prevZoomedFitted).upper =
      nsToPixel ratio duration + (controls_width + scrollbar_width) + end_padding := rfl

/-- Claim C8 counterexample: on the long name "H.264 / AVC Encoder (Muxer)"
the transform does NOT yield "H.264 / AVC"; the parentheses survive. -/
theorem C8_counterexample :
    ¬(beautify_factoryname "H.264 / AVC Encoder (Muxer)" = "H.264 / AVC") := by decide

/-- Claim C8 (amended): `beautify_name` is the fixed removals, then the
fixed replacements, then whitespace collapsing; on the long name
"H.264 / AVC Encoder (Muxer)" it removes the "Encoder" and "Muxer" tokens
and yields the trimmed, single-spaced string "H.264 / AVC ()" (the
parenthesis characters are not removed). -/
theorem C8_beautify_result :
    beautify_factoryname "H.264 / AVC Encoder (Muxer)" = "H.264 / AVC ()" := by decide

/-- Claim C9: a snapping-started notification at position exactly 0
produces the very state a snapping-ended notification produces; a non-zero
position shows the indicator at that position's pixel offset; snapping-ended
hides the indicator unconditionally. -/
theorem C9_snap_indicator (ratio rowSize : ℚ) (nLayers position : Nat) (st : SnapIndicator) :
    snapCb ratio rowSize nLayers 0 st = snapEndedCb st ∧
    (snapEndedCb st).visible = false ∧
    (position ≠ 0 →
      (snapCb ratio rowSize nLayers position st).visible = true ∧
      (snapCb ratio rowSize nLayers position st).x = nsToPixel ratio position) := by
  refine ⟨rfl, rfl, fun h => ?_⟩
  unfold snapCb
  rw [if_neg h]
  exact ⟨rfl, rfl⟩

/-- Claim C9 witness: the theorem applied at position 3 on a concrete
visible indicator state. -/
theorem C9_snap_indicator_witness :
    snapCb 1 75 2 0 ⟨true, 5, 7⟩ = snapEndedCb ⟨true, 5, 7⟩ ∧
    (snapCb 1 75 2 3 ⟨true, 5, 7⟩).visible = true := by
  have h := C9_snap_indicator 1 75 2 3 ⟨true, 5, 7⟩
  exact ⟨h.1, (h.2.2 (by decide)).1⟩

/-- Claim C5: evaluation of the code at the failing inputs.  Removing a
displayed element (id 7) unsubscribes only the start/duration/in-point
handlers and leaves the `notify::priority` connection alive, and a removal
notification for an element that has no displayed proxy (id 9, stage empty)
raises `TypeError` from `disconnect_by_func` instead of being a defensive
no-op. -/
theorem C5_remove_element_eval :
    removeTimelineElement (addTimelineElement ⟨[], []⟩ 7) 7 =
      Except.ok ⟨[], [Conn.mk 7 "notify::priority"]⟩ ∧
    removeTimelineElement ⟨[], []⟩ 9 = Except.error PyError.typeError := by
  exact ⟨rfl, rfl⟩

/-- Claim C4 counterexample: bind the viewport to timeline 1 (one track,
id 10), then rebind to timeline 2; the per-track listener on track 10 of
the OLD model is still connected after the rebind, so the claim that no
listener remains connected to the old model is false. -/
theorem C4_counterexample :
    Conn.mk 10 "track-element-added" ∈
      (setTimelineStage (setTimelineStage stage0 bT1) bT2).conns ∧
    (10 : Nat) ∈ bT1.tracks ∧ bT1 ≠ bT2 := by decide

/-- Claim C6 counterexample: with zoom level 5 current and a zero timeline
duration, the best-fit computation returns early and the zoom level stays
5 — it does not yield level 0 as claimed. -/
theorem C6_counterexample :
    setBestZoomRatio ratiosW 100 0 5 = 5 ∧ ¬(setBestZoomRatio ratiosW 100 0 5 = 0) := by
  exact ⟨rfl, by decide⟩

/-- Membership in the connections produced by folding `connectTrack` over a
track list: either an original connection, or a per-track connection on one
of the tracks. -/
theorem mem_foldl_connectTrack (tracks : List Nat) (conns : List Conn) (c : Conn) :
    c ∈ tracks.foldl connectTrack conns ↔
      c ∈ conns ∨ (c.obj ∈ tracks ∧ c.signal ∈ trackSignals) := by
  induction tracks generalizing conns with
  | nil => simp
  | cons t ts ih =>
    rw [List.foldl_cons, ih]
    unfold connectTrack
    constructor
    · rintro (hc | hc)
      · rw [List.mem_append] at hc
        rcases hc with hc | hc
        · exact Or.inl hc
        · rw [List.mem_map] at hc
          obtain ⟨s, hs, rfl⟩ := hc
          exact Or.inr ⟨List.mem_cons_self t ts, hs⟩
      · exact Or.inr ⟨List.mem_cons_of_mem t hc.1, hc.2⟩
    · rintro (hc | ⟨hobj, hsig⟩)
      · exact Or.inl (List.mem_append_left _ hc)
      · rw [List.mem_cons] at hobj
        rcases hobj with hobj | hobj
        · refine Or.inl (List.mem_append_right _ ?_)
          rw [List.mem_map]
          exact ⟨c.signal, hsig, by cases c; simp_all⟩
        · exact Or.inr ⟨hobj, hsig⟩

/-- Claim C4 (amended): rebinding the viewport to a new timeline model
disconnects the six timeline-level listeners from the previous model before
attaching to the new one, but the per-track listeners registered on the
previous model's tracks are NOT disconnected: every non-timeline-level
connection survives the rebind unchanged. -/
theorem C4_rebind_disconnects_timeline_level (st : StageConnState) (old new : BTimeline)
    (hb : st.bTimeline = some old) (h1 : old.id ≠ new.id) (h2 : old.id ∉ new.tracks) :
    (∀ s ∈ timelineSignals, Conn.mk old.id s ∉ (setTimelineStage st new).conns) ∧
    (∀ c ∈ st.conns, c.signal ∉ timelineSignals → c ∈ (setTimelineStage st new).conns) := by
  unfold setTimelineStage
  rw [hb]
  constructor
  · intro s hs hmem
    rw [List.mem_append] at hmem
    rcases hmem with hmem | hmem
    · rw [mem_foldl_connectTrack] at hmem
      rcases hmem with hmem | hmem
      · rw [List.mem_filter] at hmem
        exact of_decide_eq_true hmem.2 ⟨rfl, hs⟩
      · exact h2 hmem.1
    · rw [List.mem_map] at hmem
      obtain ⟨s2, _, heq⟩ := hmem
      exact h1 (congrArg Conn.obj heq).symm
  · intro c hc hcs
    refine List.mem_append_left _ ?_
    rw [mem_foldl_connectTrack]
    refine Or.inl ?_
    rw [List.mem_filter]
    refine ⟨hc, decide_eq_true ?_⟩
    rintro ⟨-, hsig⟩
    exact hcs hsig

/-- Claim C4 witness: after binding to timeline 1 and rebinding to
timeline 2, the timeline-level "track-added" listener on timeline 1 is
gone, while the surviving per-track connection is exhibited by
`C4_counterexample`. -/
theorem C4_rebind_witness :
    Conn.mk bT1.id "track-added" ∉
      (setTimelineStage (setTimelineStage stage0 bT1) bT2).conns ∧
    Conn.mk 10 "track-element-added" ∈ (setTimelineStage stage0 bT1).conns := by
  have h := C4_rebind_disconnects_timeline_level (setTimelineStage stage0 bT1) bT1 bT2
    (by decide) (by decide) (by decide)
  exact ⟨h.1 "track-added" (by decide), by decide⟩

/-- `my_can_sink_caps`, when fed the muxer's own sink-template caps as the
cache argument (as `encoders_muxer_compatible` does), agrees with the plain
"some sink capability set intersects" test — including the corner case of a
muxer without sink templates, where the slow path also yields false. -/
theorem my_can_sink_caps_spec (muxer : ElementFactory) (ocaps : Caps) :
    my_can_sink_caps muxer ocaps (sinkTemplateCaps muxer) =
      (sinkTemplateCaps muxer).any (fun c => ¬(c.intersect ocaps).isEmpty) := by
  unfold my_can_sink_caps
  split
  · rfl
  · rename_i hne
    have hnil : sinkTemplateCaps muxer = [] := by
      by_contra hx
      exact hne hx
    rw [hnil, List.any_nil]
    rw [List.any_eq_false]
    intro x hx
    intro hcontra
    rcases of_decide_eq_true hcontra with ⟨hdir, -⟩
    have hxin : x.caps ∈ sinkTemplateCaps muxer := by
      unfold sinkTemplateCaps
      rw [List.mem_map]
      refine ⟨x, ?_, rfl⟩
      rw [List.mem_filter]
      exact ⟨hx, decide_eq_true hdir⟩
    rw [hnil] at hxin
    exact absurd hxin (List.not_mem_nil _)

/-- Claim C3: `encoders_muxer_compatible` returns exactly the encoders
having some SRC capability set with non-empty intersection with some of
the muxer's SINK capability sets, preserving input order (it is the filter
of the input list by that predicate); in particular the result is empty
precisely when no encoder is compatible, and non-empty when at least one
is. -/
theorem C3_compatible_encoders_filter (encoders : List ElementFactory)
    (muxer : ElementFactory) :
    encoders_muxer_compatible encoders muxer [] =
      encoders.filter (fun e => compatibleWithMuxer muxer e) ∧
    (encoders_muxer_compatible encoders muxer [] = [] ↔
      ∀ e ∈ encoders, compatibleWithMuxer muxer e = false) ∧
    ((∃ e ∈ encoders, compatibleWithMuxer muxer e = true) →
      encoders_muxer_compatible encoders muxer [] ≠ []) := by
  have hfil : encoders_muxer_compatible encoders muxer [] =
      encoders.filter (fun e => compatibleWithMuxer muxer e) := by
    simp only [encoders_muxer_compatible, if_true]
    apply List.filter_congr
    intro e _
    simp only [my_can_sink_caps_spec]
    rfl
  refine ⟨hfil, ?_, ?_⟩
  · rw [hfil, List.filter_eq_nil]
    constructor
    · intro h e he
      have := h e he
      rwa [Bool.not_eq_true] at this
    · intro h e he
      rw [h e he]
      exact Bool.false_ne_true
  · rintro ⟨e, he, hcompat⟩ hnil
    rw [hfil, List.filter_eq_nil] at hnil
    exact hnil e he hcompat

/-- Claim C3 witness: a raw-audio encoder and a muxer accepting raw audio —
the compatible list is non-empty; and against the incompatible muxer the
list is empty. -/
theorem C3_compatible_encoders_witness :
    encoders_muxer_compatible [encA] muxAV [] ≠ [] ∧
    encoders_muxer_compatible [encA] muxBad [] = [] := by
  have h := (C3_compatible_encoders_filter [encA] muxAV).2.2
    ⟨encA, by decide, by decide⟩
  have h2 := (C3_compatible_encoders_filter [encA] muxBad).2.1.mpr (by decide)
  exact ⟨h, h2⟩

/-- Characterization of the `available_combinations` fold: the containers
are the muxers passing the dual-compatibility test, in order, and the two
maps list exactly those muxers' names with their compatible-encoder
lists. -/
theorem available_combinations_eq (ae ve mux : List ElementFactory) :
    available_combinations ae ve mux =
      (mux.filter (fun m => decide (encoders_muxer_compatible ae m [] ≠ [] ∧
          encoders_muxer_compatible ve m [] ≠ [])),
       (mux.filter (fun m => decide (encoders_muxer_compatible ae m [] ≠ [] ∧
          encoders_muxer_compatible ve m [] ≠ []))).map
         (fun m => (m.name, encoders_muxer_compatible ae m [])),
       (mux.filter (fun m => decide (encoders_muxer_compatible ae m [] ≠ [] ∧
          encoders_muxer_compatible ve m [] ≠ []))).map
         (fun m => (m.name, encoders_muxer_compatible ve m []))) := by
  unfold available_combinations
  suffices h : ∀ acc : List ElementFactory × List (String × List ElementFactory) ×
      List (String × List ElementFactory),
      mux.foldl
        (fun acc muxer =>
          let aencs := encoders_muxer_compatible ae muxer []
          let vencs := encoders_muxer_compatible ve muxer []
          if aencs ≠ [] ∧ vencs ≠ [] then
            (acc.1 ++ [muxer], acc.2.1 ++ [(muxer.name, aencs)], acc.2.2 ++ [(muxer.name, vencs)])
          else acc)
        acc =
      (acc.1 ++ mux.filter (fun m => decide (encoders_muxer_compatible ae m [] ≠ [] ∧
          encoders_muxer_compatible ve m [] ≠ [])),
       acc.2.1 ++ (mux.filter (fun m => decide (encoders_muxer_compatible ae m [] ≠ [] ∧
          encoders_muxer_compatible ve m [] ≠ []))).map
         (fun m => (m.name, encoders_muxer_compatible ae m [])),
       acc.2.2 ++ (mux.filter (fun m => decide (encoders_muxer_compatible ae m [] ≠ [] ∧
          encoders_muxer_compatible ve m [] ≠ []))).map
         (fun m => (m.name, encoders_muxer_compatible ve m []))) by
    rw [h ([], [], [])]
    simp
  induction mux with
  | nil => intro acc; simp
  | cons m rest ih =>
    intro acc
    simp only [List.foldl_cons]
    by_cases h : (encoders_muxer_compatible ae m [] ≠ [] ∧ encoders_muxer_compatible ve m [] ≠ [])
    · rw [if_pos h, ih]
      obtain ⟨h1, h2⟩ := h
      simp [List.filter_cons, h1, h2, List.append_assoc]
    · rw [if_neg h, ih]
      have hd : decide (encoders_muxer_compatible ae m [] ≠ [] ∧
          encoders_muxer_compatible ve m [] ≠ []) = false := by
        simpa using h
      simp [List.filter_cons, hd]
      rw [if_neg h]
      exact ⟨rfl, rfl, rfl⟩

/-- Claim C2: every muxer in the container list returned by
`available_combinations` has at least one compatible audio encoder and at
least one compatible video encoder; a muxer lacking either is absent from
the container list and its name keys no entry of either returned map
(registry feature names are unique, hence the `Nodup` hypothesis on muxer
names). -/
theorem C2_available_combinations_both (ae ve mux : List ElementFactory)
    (hnd : (mux.map ElementFactory.name).Nodup) :
    (∀ m ∈ (available_combinations ae ve mux).1,
        encoders_muxer_compatible ae m [] ≠ [] ∧ encoders_muxer_compatible ve m [] ≠ []) ∧
    (∀ m ∈ mux,
      (encoders_muxer_compatible ae m [] = [] ∨ encoders_muxer_compatible ve m [] = []) →
        m ∉ (available_combinations ae ve mux).1 ∧
        (∀ e ∈ (available_combinations ae ve mux).2.1, e.1 ≠ m.name) ∧
        (∀ e ∈ (available_combinations ae ve mux).2.2, e.1 ≠ m.name)) := by
  rw [available_combinations_eq]
  constructor
  · intro m hm
    rw [List.mem_filter] at hm
    exact of_decide_eq_true hm.2
  · intro m hm hbad
    have hgoodfalse : ∀ m' ∈ mux, m'.name = m.name →
        ¬(decide (encoders_muxer_compatible ae m' [] ≠ [] ∧
            encoders_muxer_compatible ve m' [] ≠ []) = true) := by
      intro m2 hm2 hname hdec
      have hm2m : m2 = m := List.inj_on_of_nodup_map hnd hm2 hm hname
      subst hm2m
      rcases of_decide_eq_true hdec with ⟨h1, h2⟩
      rcases hbad with hb | hb
      · exact h1 hb
      · exact h2 hb
    refine ⟨?_, ?_, ?_⟩
    · intro hmem
      rw [List.mem_filter] at hmem
      exact hgoodfalse m hm rfl hmem.2
    · intro e he
      rw [List.mem_map] at he
      obtain ⟨m2, hm2, rfl⟩ := he
      rw [List.mem_filter] at hm2
      intro hname
      exact hgoodfalse m2 hm2.1 hname hm2.2
    · intro e he
      rw [List.mem_map] at he
      obtain ⟨m2, hm2, rfl⟩ := he
      rw [List.mem_filter] at hm2
      intro hname
      exact hgoodfalse m2 hm2.1 hname hm2.2

/-- Claim C2 witness: with one audio and one video encoder and two muxers,
the incompatible muxer is excluded from the container list and from both
maps, while the compatible muxer is in the container list. -/
theorem C2_available_combinations_witness :
    muxBad ∉ (available_combinations [encA] [encV] [muxAV, muxBad]).1 ∧
    (∀ e ∈ (available_combinations [encA] [encV] [muxAV, muxBad]).2.1, e.1 ≠ muxBad.name) ∧
    muxAV ∈ (available_combinations [encA] [encV] [muxAV, muxBad]).1 := by
  have h := (C2_available_combinations_both [encA] [encV] [muxAV, muxBad]
    (by decide)).2 muxBad (by decide) (Or.inl (by decide))
  exact ⟨h.1, h.2.1, by decide⟩

/-- Looking up the key just set yields the value just set. -/
theorem lookupProp_setProp_self (props : List (String × Int)) (k : String) (v : Int) :
    lookupProp (setProp props k v) k = some v := by
  induction props with
  | nil =>
    simp [setProp, lookupProp]
  | cons kv rest ih =>
    unfold setProp
    by_cases h : kv.1 = k
    · rw [if_pos h]
      simp [lookupProp]
    · rw [if_neg h]
      unfold lookupProp
      rw [List.find?_cons_of_neg _ (by simpa using h)]
      exact ih

/-- Setting one key leaves the binding of any other key unchanged. -/
theorem lookupProp_setProp_ne (props : List (String × Int)) (k k2 : String) (v : Int)
    (h : k2 ≠ k) : lookupProp (setProp props k v) k2 = lookupProp props k2 := by
  induction props with
  | nil =>
    unfold setProp lookupProp
    rw [List.find?_cons_of_neg _ (by simpa using fun hx : k = k2 => h hx.symm)]
  | cons kv rest ih =>
    unfold setProp
    by_cases hk : kv.1 = k
    · rw [if_pos hk]
      unfold lookupProp
      rw [List.find?_cons_of_neg _ (by simpa using fun hx : k = k2 => h hx.symm),
        List.find?_cons_of_neg _ (by rw [hk]; simpa using fun hx : k = k2 => h hx.symm)]
    · rw [if_neg hk]
      unfold lookupProp
      by_cases h2 : kv.1 = k2
      · rw [List.find?_cons_of_pos _ (by simpa using h2),
          List.find?_cons_of_pos _ (by simpa using h2)]
      · rw [List.find?_cons_of_neg _ (by simpa using h2),
          List.find?_cons_of_neg _ (by simpa using h2)]
        exact ih

/-- A fold of `setProp` updates over keys not containing `k` preserves the
binding of `k`. -/
theorem lookupProp_foldl_setProp_not_mem (f : (String × Int) → Int) :
    ∀ (l el : List (String × Int)) (k : String), k ∉ l.map Prod.fst →
      lookupProp (l.foldl (fun el2 kv => setProp el2 kv.1 (f kv)) el) k = lookupProp el k := by
  intro l
  induction l with
  | nil => intro el k _; rfl
  | cons kv rest ih =>
    intro el k hk
    rw [List.map_cons, List.mem_cons] at hk
    push_neg at hk
    rw [List.foldl_cons, ih _ _ hk.2, lookupProp_setProp_ne _ _ _ _ hk.1]

/-- A fold of `setProp` updates whose written value depends only on the key
ends with every folded key bound to its computed value. -/
theorem lookupProp_foldl_setProp_key (g : String → Int) :
    ∀ (l el : List (String × Int)) (k : String), k ∈ l.map Prod.fst →
      lookupProp (l.foldl (fun el2 kv => setProp el2 kv.1 (g kv.1)) el) k = some (g k) := by
  intro l
  induction l with
  | nil => intro el k hk; exact absurd hk (List.not_mem_nil _)
  | cons kv rest ih =>
    intro el k hk
    rw [List.foldl_cons]
    by_cases hmem : k ∈ rest.map Prod.fst
    · exact ih _ _ hmem
    · rw [List.map_cons, List.mem_cons] at hk
      rcases hk with hk | hk
      · subst hk
        rw [lookupProp_foldl_setProp_not_mem _ _ _ _ hmem, lookupProp_setProp_self]
      · exact absurd hk hmem

/-- A fold of `setProp` updates over a duplicate-free map ends with every
folded key bound to the map's own value for it. -/
theorem lookupProp_foldl_setProp_vals (vcodec : List (String × Int))
    (hnd : (vcodec.map Prod.fst).Nodup) :
    ∀ (el : List (String × Int)) (k : String), k ∈ vcodec.map Prod.fst →
      lookupProp (vcodec.foldl (fun el2 kv => setProp el2 kv.1 kv.2) el) k =
        lookupProp vcodec k := by
  induction vcodec with
  | nil => intro el k hk; exact absurd hk (List.not_mem_nil _)
  | cons kv rest ih =>
    intro el k hk
    rw [List.map_cons] at hnd
    have hkv1 : kv.1 ∉ rest.map Prod.fst := (List.nodup_cons.mp hnd).1
    have hndr : (rest.map Prod.fst).Nodup := (List.nodup_cons.mp hnd).2
    rw [List.foldl_cons]
    by_cases heq : k = kv.1
    · subst heq
      rw [lookupProp_foldl_setProp_not_mem _ _ _ _ hkv1, lookupProp_setProp_self]
      unfold lookupProp
      rw [List.find?_cons_of_pos _ (by simp)]
    · rw [List.map_cons, List.mem_cons] at hk
      rcases hk with hk | hk
      · exact absurd hk heq
      · rw [ih hndr _ _ hk]
        unfold lookupProp
        rw [List.find?_cons_of_neg _ (by simpa using fun hx : kv.1 = k => heq hx.symm)]

/-- When every audio-settings key is present in the video map, the audio
branch of `_elementAddedCb` succeeds and equals the pure fold writing the
video map's values. -/
theorem audio_branch_foldlM_ok (vcodec : List (String × Int)) :
    ∀ (acodec el : List (String × Int)),
      (∀ kv ∈ acodec, (lookupProp vcodec kv.1).isSome = true) →
      acodec.foldlM
        (fun el2 kv =>
          match lookupProp vcodec kv.1 with
          | some v => Except.ok (setProp el2 kv.1 v)
          | none => Except.error PyError.keyError)
        el =
      Except.ok (acodec.foldl
        (fun el2 kv => setProp el2 kv.1 ((lookupProp vcodec kv.1).getD 0)) el) := by
  intro acodec
  induction acodec with
  | nil => intro el _; rfl
  | cons kv rest ih =>
    intro el hall
    obtain ⟨v, hv⟩ := Option.isSome_iff_exists.mp (hall kv (List.mem_cons_self kv rest))
    rw [List.foldlM_cons, List.foldl_cons, hv]
    have hbind :
        (Except.ok (setProp el kv.1 v) >>= fun el2 => rest.foldlM
          (fun el2 kv =>
            match lookupProp vcodec kv.1 with
            | some v => Except.ok (setProp el2 kv.1 v)
            | none => Except.error PyError.keyError) el2) =
        rest.foldlM
          (fun el2 kv =>
            match lookupProp vcodec kv.1 with
            | some v => Except.ok (setProp el2 kv.1 v)
            | none => Except.error PyError.keyError) (setProp el kv.1 v) := rfl
    rw [hbind]
    simp only [Option.getD_some]
    exact ih _ (fun kv2 h2 => hall kv2 (List.mem_cons_of_mem kv h2))

/-- Claim C10: when the added element matches the selected AUDIO encoder
factory, each property named in the audio codec settings map is set to the
value stored under that name in the VIDEO codec settings map; video encoder
elements receive values from the video map as expected. -/
theorem C10_audio_branch_reads_video_settings (settings : CodecSettings)
    (videoFactory audioFactory : String) (element : List (String × Int))
    (hne : audioFactory ≠ videoFactory)
    (hsub : ∀ kv ∈ settings.acodecsettings,
      (lookupProp settings.vcodecsettings kv.1).isSome = true)
    (hnd : (settings.vcodecsettings.map Prod.fst).Nodup) :
    (∃ el2, elementAddedCb settings videoFactory audioFactory audioFactory element =
        Except.ok el2 ∧
      ∀ k ∈ settings.acodecsettings.map Prod.fst,
        lookupProp el2 k = lookupProp settings.vcodecsettings k) ∧
    (∃ el3, elementAddedCb settings videoFactory audioFactory videoFactory element =
        Except.ok el3 ∧
      ∀ k ∈ settings.vcodecsettings.map Prod.fst,
        lookupProp el3 k = lookupProp settings.vcodecsettings k) := by
  constructor
  · refine ⟨settings.acodecsettings.foldl
      (fun el2 kv => setProp el2 kv.1 ((lookupProp settings.vcodecsettings kv.1).getD 0))
      element, ?_, ?_⟩
    · unfold elementAddedCb
      rw [if_neg hne, if_pos rfl]
      exact audio_branch_foldlM_ok settings.vcodecsettings settings.acodecsettings element hsub
    · intro k hk
      rw [lookupProp_foldl_setProp_key
        (fun k2 => (lookupProp settings.vcodecsettings k2).getD 0) _ _ _ hk]
      obtain ⟨kv0, hkv0, hfst⟩ := List.mem_map.mp hk
      obtain ⟨v, hv⟩ := Option.isSome_iff_exists.mp (hsub kv0 hkv0)
      rw [hfst] at hv
      rw [hv]
      rfl
  · refine ⟨settings.vcodecsettings.foldl
      (fun el2 kv => setProp el2 kv.1 kv.2) element, ?_, ?_⟩
    · unfold elementAddedCb
      rw [if_pos rfl]
    · intro k hk
      exact lookupProp_foldl_setProp_vals settings.vcodecsettings hnd element k hk

/-- Claim C10 witness: with `bitrate ↦ 9000` in the video map and
`bitrate ↦ 128` in the audio map, an element matching the audio encoder
factory ends up with `bitrate = 9000` — the video value, not 128. -/
theorem C10_witness :
    elementAddedCb codecSettingsW "x264enc" "lamemp3enc" "lamemp3enc" [] =
      Except.ok [("bitrate", 9000)] ∧
    lookupProp [("bitrate", 9000)] "bitrate" = some 9000 ∧
    lookupProp codecSettingsW.acodecsettings "bitrate" = some 128 := by
  obtain ⟨el2, hok, hval⟩ := (C10_audio_branch_reads_video_settings codecSettingsW
    "x264enc" "lamemp3enc" [] (by decide) (by decide) (by decide)).1
  have hval2 := hval "bitrate" (by decide)
  exact ⟨rfl, by decide, by decide⟩

/-- The fold used by `computeZoomLevel` picks the LARGEST index of
`range n` satisfying the predicate (and 0 when none does). -/
theorem foldl_pick_last (p : Nat → Prop) [DecidablePred p] (n : Nat) :
    (∀ i, i < n → p i →
      i ≤ (List.range n).foldl (fun acc i => if p i then i else acc) 0) ∧
    ((∃ i, i < n ∧ p i) →
      p ((List.range n).foldl (fun acc i => if p i then i else acc) 0) ∧
      (List.range n).foldl (fun acc i => if p i then i else acc) 0 < n) := by
  induction n with
  | zero =>
    constructor
    · intro i hi
      exact absurd hi (Nat.not_lt_zero i)
    · rintro ⟨i, hi, -⟩
      exact absurd hi (Nat.not_lt_zero i)
  | succ n ih =>
    rw [List.range_succ, List.foldl_append, List.foldl_cons, List.foldl_nil]
    by_cases hp : p n
    · rw [if_pos hp]
      constructor
      · intro i hi _
        exact Nat.lt_succ_iff.mp hi
      · intro _
        exact ⟨hp, Nat.lt_succ_self n⟩
    · rw [if_neg hp]
      constructor
      · intro i hi hpi
        have hin : i < n := by
          rcases Nat.lt_succ_iff_lt_or_eq.mp hi with h | h
          · exact h
          · exact absurd (h ▸ hpi) hp
        exact ih.1 i hin hpi
      · rintro ⟨i, hi, hpi⟩
        have hin : i < n := by
          rcases Nat.lt_succ_iff_lt_or_eq.mp hi with h | h
          · exact h
          · exact absurd (h ▸ hpi) hp
        have := ih.2 ⟨i, hin, hpi⟩
        exact ⟨this.1, Nat.lt_succ_of_lt this.2⟩

/-- Claim C6 (amended): for a NON-ZERO duration, the best-fit computation
selects the largest discrete zoom level whose pixels-per-second ratio `r`
keeps `secs * r <= ruler_width`, where `secs` is the duration rounded up to
whole seconds (the spec's `duration * ratio <= viewport_width` at second
granularity); when the duration is zero the method returns early and the
zoom level is left unchanged (it is NOT reset to level 0). -/
theorem C6_best_fit_zoom (ratios : List ℚ) (rulerWidth : ℚ) (duration curLevel : Nat)
    (hd : duration ≠ 0) :
    (∀ i, i < ratios.length →
      (((duration + GST_SECOND - 1) / GST_SECOND : Nat) : ℚ) * ratios.getD i 0 ≤ rulerWidth →
      i ≤ setBestZoomRatio ratios rulerWidth duration curLevel) ∧
    ((∃ i, i < ratios.length ∧
        (((duration + GST_SECOND - 1) / GST_SECOND : Nat) : ℚ) * ratios.getD i 0 ≤ rulerWidth) →
      (((duration + GST_SECOND - 1) / GST_SECOND : Nat) : ℚ) *
          ratios.getD (setBestZoomRatio ratios rulerWidth duration curLevel) 0 ≤ rulerWidth ∧
        setBestZoomRatio ratios rulerWidth duration curLevel < ratios.length) ∧
    (∀ (w2 : ℚ) (c2 : Nat), setBestZoomRatio ratios w2 0 c2 = c2) := by
  have hsecs : 0 < ((duration + GST_SECOND - 1) / GST_SECOND : Nat) := by
    have h1 : GST_SECOND ≤ duration + GST_SECOND - 1 := by
      unfold GST_SECOND
      omega
    have h2 := (Nat.one_le_div_iff (show 0 < GST_SECOND by decide)).mpr h1
    omega
  have hsecsq : (0 : ℚ) < (((duration + GST_SECOND - 1) / GST_SECOND : Nat) : ℚ) := by
    exact_mod_cast hsecs
  have hiff : ∀ r : ℚ,
      (r ≤ rulerWidth / (((duration + GST_SECOND - 1) / GST_SECOND : Nat) : ℚ)) ↔
      ((((duration + GST_SECOND - 1) / GST_SECOND : Nat) : ℚ) * r ≤ rulerWidth) := by
    intro r
    rw [le_div_iff hsecsq, mul_comm]
  have hunfold : setBestZoomRatio ratios rulerWidth duration curLevel =
      computeZoomLevel ratios
        (rulerWidth / (((duration + GST_SECOND - 1) / GST_SECOND : Nat) : ℚ)) := by
    unfold setBestZoomRatio
    rw [if_neg hd]
  have hfold := foldl_pick_last
    (fun i => ratios.getD i 0 ≤
      rulerWidth / (((duration + GST_SECOND - 1) / GST_SECOND : Nat) : ℚ))
    ratios.length
  refine ⟨?_, ?_, ?_⟩
  · intro i hi hle
    rw [hunfold]
    exact hfold.1 i hi ((hiff _).mpr hle)
  · rintro ⟨i, hi, hle⟩
    have h2 := hfold.2 ⟨i, hi, (hiff _).mpr hle⟩
    rw [hunfold]
    exact ⟨(hiff _).mp h2.1, h2.2⟩
  · intro w2 c2
    unfold setBestZoomRatio
    rw [if_pos rfl]

/-- Claim C6 witness: with zoom table `[1, 2, 5]`, ruler width 10 and a
3-second duration (so 3 whole seconds), the theorem yields a level at
least 1 (level 1 fits: 3*2 <= 10) and below the table length, and a zero
duration leaves the current level 5 unchanged. -/
theorem C6_best_fit_zoom_witness :
    1 ≤ setBestZoomRatio ratiosW 10 (3 * GST_SECOND) 0 ∧
    setBestZoomRatio ratiosW 10 (3 * GST_SECOND) 0 < ratiosW.length ∧
    setBestZoomRatio ratiosW 100 0 5 = 5 := by
  have h := C6_best_fit_zoom ratiosW 10 (3 * GST_SECOND) 0 (by decide)
  have hsecs : ((3 * GST_SECOND + GST_SECOND - 1) / GST_SECOND : Nat) = 3 := by decide
  refine ⟨?_, ?_, h.2.2 100 5⟩
  · apply h.1 1 (by decide)
    rw [hsecs]
    norm_num [ratiosW]
  · refine (h.2.1 ⟨0, by decide, ?_⟩).2
    rw [hsecs]
    norm_num [ratiosW]

/-- `applyToLayer` with an id-preserving mutation leaves the id list
unchanged. -/
theorem applyToLayer_layerIds (f : Layer → Layer) (hf : ∀ l, (f l).id = l.id)
    (lid : Nat) (st : List Layer) : layerIds (applyToLayer f lid st) = layerIds st := by
  unfold layerIds applyToLayer
  rw [List.map_map]
  apply List.map_congr_left
  intro l _
  by_cases h : l.id = lid
  · simp [h, hf]
  · simp [h]

/-- Inserting into a priority-sorted list is a permutation of consing. -/
theorem insertByPrio_perm (l : Layer) (xs : List Layer) :
    (insertByPrio l xs).Perm (l :: xs) := by
  induction xs with
  | nil => exact List.Perm.refl _
  | cons x rest ih =>
    unfold insertByPrio
    by_cases h : l.priority < x.priority
    · rw [if_pos h]
    · rw [if_neg h]
      exact (List.Perm.cons x ih).trans (List.Perm.swap l x rest)

/-- `get_layers` returns a permutation of the stored layer list. -/
theorem get_layers_perm (st : List Layer) : (get_layers st).Perm st := by
  induction st with
  | nil => exact List.Perm.refl _
  | cons l rest ih =>
    unfold get_layers
    rw [List.foldr_cons]
    exact (insertByPrio_perm l _).trans (List.Perm.cons l ih)

/-- The final state of `runSteps` is the plain fold of the per-id
mutation. -/
theorem runSteps_fst (f : Layer → Layer) (st : List Layer) (ids : List Nat) :
    (runSteps f st ids).1 = ids.foldl (fun s lid => applyToLayer f lid s) st := by
  unfold runSteps
  suffices h : ∀ (acc2 : List (List Layer)) (st2 : List Layer),
      (ids.foldl
        (fun acc lid =>
          let st' := applyToLayer f lid acc.1
          (st', acc.2 ++ [st']))
        (st2, acc2)).1 = ids.foldl (fun s lid => applyToLayer f lid s) st2 by
    exact h [] st
  induction ids with
  | nil => intro acc2 st2; rfl
  | cons i rest ih =>
    intro acc2 st2
    rw [List.foldl_cons, List.foldl_cons]
    exact ih _ _

/-- Folding an id-preserving per-id mutation over a duplicate-free id list
equals mapping the mutation over exactly the layers whose id occurs. -/
theorem foldl_applyToLayer_eq_map (f : Layer → Layer) (hf : ∀ l, (f l).id = l.id) :
    ∀ (ids : List Nat) (st : List Layer), ids.Nodup →
      ids.foldl (fun s lid => applyToLayer f lid s) st =
        st.map (fun l => if l.id ∈ ids then f l else l) := by
  intro ids
  induction ids with
  | nil =>
    intro st _
    simp
  | cons a rest ih =>
    intro st hnd
    rw [List.nodup_cons] at hnd
    rw [List.foldl_cons, ih _ hnd.2]
    unfold applyToLayer
    rw [List.map_map]
    apply List.map_congr_left
    intro l _
    by_cases h : l.id = a
    · have hfa : (f l).id = a := by rw [hf l, h]
      have hnotin : (f l).id ∉ rest := by
        rw [hfa]
        exact fun hx => hnd.1 hx
      simp only [Function.comp_apply, if_pos h]
      rw [if_neg hnotin, if_pos (by rw [h]; exact List.mem_cons_self a rest)]
    · simp only [Function.comp_apply, if_neg h]
      by_cases h2 : l.id ∈ rest
      · rw [if_pos h2, if_pos (List.mem_cons_of_mem a h2)]
      · rw [if_neg h2, if_neg (by
          rw [List.mem_cons]
          rintro (hx | hx)
          · exact h hx
          · exact h2 hx)]

/-- With unique layer ids, `getPriority` returns the priority of any member
layer carrying the queried id. -/
theorem getPriority_eq (st : List Layer) (l : Layer) (hnd : (layerIds st).Nodup)
    (hl : l ∈ st) : getPriority st l.id = l.priority := by
  induction st with
  | nil => exact absurd hl (List.not_mem_nil l)
  | cons x rest ih =>
    unfold layerIds at hnd
    rw [List.map_cons, List.nodup_cons] at hnd
    rw [List.mem_cons] at hl
    unfold getPriority
    rcases hl with hl | hl
    · subst hl
      rw [List.find?_cons_of_pos _ (by simp)]
    · by_cases hx : x.id = l.id
      · exact absurd (hx ▸ (List.mem_map.mpr ⟨l, hl, rfl⟩)) hnd.1
      · rw [List.find?_cons_of_neg _ (by simpa using fun hy : x.id = l.id => hx hy)]
        have := ih hnd.2 hl
        unfold getPriority at this
        exact this

/-- `shiftUpLayer` preserves layer ids. -/
theorem shiftUpLayer_id (target priority : Nat) (l : Layer) :
    (shiftUpLayer target priority l).id = l.id := by
  unfold shiftUpLayer
  split <;> rfl

/-- `shiftDownLayer` preserves layer ids. -/
theorem shiftDownLayer_id (target priority : Nat) (l : Layer) :
    (shiftDownLayer target priority l).id = l.id := by
  unfold shiftDownLayer
  split <;> rfl

/-- The priorities after the final `priority = target` assignment, when the
loop acted as the id-preserving per-layer mutation `mid`: the moved layer
ends at `target`, every other layer ends at its `mid`-image priority. -/
theorem prios_setPriority_map (st : List Layer) (movedId target : Nat)
    (mid : Layer → Layer) (hmid : ∀ l, (mid l).id = l.id) :
    prios (setPriority ((setPriority st movedId 999).map mid) movedId target) =
      st.map (fun l => if l.id = movedId then target else (mid l).priority) := by
  unfold prios setPriority applyToLayer
  rw [List.map_map, List.map_map, List.map_map]
  apply List.map_congr_left
  intro l _
  by_cases h : l.id = movedId
  · simp only [Function.comp_apply, if_pos h]
    rw [if_pos (by rw [hmid]; exact h)]
  · simp only [Function.comp_apply, if_neg h]
    rw [if_neg (by rw [hmid]; exact h)]

/-- The final state of `moveLayer`, with the branch selection exposed
(definitional unfolding of the `let` bindings). -/
theorem moveLayer_fst (st : List Layer) (movedId target : Nat) :
    (moveLayer st movedId target).1 =
      setPriority
        ((if target < getPriority st movedId then
            runSteps (shiftUpLayer target (getPriority st movedId)) (setPriority st movedId 999)
              (layerIds (get_layers (setPriority st movedId 999)))
          else if getPriority st movedId < target then
            runSteps (shiftDownLayer target (getPriority st movedId)) (setPriority st movedId 999)
              (layerIds (get_layers (setPriority st movedId 999)))
          else (setPriority st movedId 999, [])).1)
        movedId target := rfl

/-- Central characterization: one completed `moveLayer` realises exactly
the `prioShift` permutation on the priority list (moved layer to `target`,
the layers in between shifted by one). -/
theorem prios_moveLayer (st : List Layer) (movedId target : Nat)
    (hnd : (layerIds st).Nodup) (hmem : movedId ∈ layerIds st)
    (hpnd : (prios st).Nodup) :
    prios (moveLayer st movedId target).1 =
      (prios st).map (prioShift target (getPriority st movedId)) := by
  obtain ⟨l0, hl0, hl0id⟩ : ∃ l ∈ st, l.id = movedId := by
    unfold layerIds at hmem
    rw [List.mem_map] at hmem
    obtain ⟨l, hl, hid⟩ := hmem
    exact ⟨l, hl, hid⟩
  have hgp : getPriority st movedId = l0.priority := by
    rw [← hl0id]
    exact getPriority_eq st l0 hnd hl0
  have hs1ids : layerIds (setPriority st movedId 999) = layerIds st := by
    unfold setPriority
    exact applyToLayer_layerIds (fun l => { l with priority := 999 }) (fun l => rfl) movedId st
  have hidsperm : (layerIds (get_layers (setPriority st movedId 999))).Perm (layerIds st) := by
    rw [← hs1ids]
    exact (get_layers_perm (setPriority st movedId 999)).map _
  have hidsnd : (layerIds (get_layers (setPriority st movedId 999))).Nodup :=
    hidsperm.nodup_iff.mpr hnd
  have hcov : ∀ l ∈ setPriority st movedId 999,
      l.id ∈ layerIds (get_layers (setPriority st movedId 999)) := by
    intro l hl
    unfold layerIds
    exact List.mem_map.mpr ⟨l, (get_layers_perm _).mem_iff.mpr hl, rfl⟩
  have huniqueId : ∀ l ∈ st, l.id = movedId → l = l0 := by
    intro l hl hid
    exact List.inj_on_of_nodup_map hnd hl hl0 (by rw [hid, hl0id])
  have huniquePrio : ∀ l ∈ st, l.id ≠ movedId → l.priority ≠ l0.priority := by
    intro l hl hid hpr
    have : l = l0 := List.inj_on_of_nodup_map hpnd hl hl0 hpr
    exact hid (this ▸ hl0id)
  have hfinal : ∀ mid : Layer → Layer, (∀ l, (mid l).id = l.id) →
      (∀ l ∈ st, l.id ≠ movedId →
        (mid l).priority = prioShift target (getPriority st movedId) l.priority) →
      prios (setPriority ((setPriority st movedId 999).map mid) movedId target) =
        (prios st).map (prioShift target (getPriority st movedId)) := by
    intro mid hmid hmidp
    rw [prios_setPriority_map st movedId target mid hmid]
    unfold prios
    rw [List.map_map]
    apply List.map_congr_left
    intro l hl
    by_cases h : l.id = movedId
    · have hleq : l = l0 := huniqueId l hl h
      simp only [Function.comp_apply, if_pos h]
      rw [hgp, hleq]
      unfold prioShift
      rw [if_pos rfl]
    · simp only [Function.comp_apply, if_neg h]
      exact hmidp l hl h
  rcases Nat.lt_trichotomy target (getPriority st movedId) with hc | hc | hc
  · have hstep : (moveLayer st movedId target).1 =
        setPriority ((setPriority st movedId 999).map
          (shiftUpLayer target (getPriority st movedId))) movedId target := by
      rw [moveLayer_fst, if_pos hc, runSteps_fst,
        foldl_applyToLayer_eq_map _ (shiftUpLayer_id target _) _ _ hidsnd]
      congr 1
      apply List.map_congr_left
      intro l hl
      rw [if_pos (hcov l hl)]
    rw [hstep]
    apply hfinal _ (shiftUpLayer_id target _)
    intro l hl hid
    have hne := huniquePrio l hl hid
    rw [hgp] at hc ⊢
    unfold shiftUpLayer prioShift
    split_ifs <;> first | rfl | omega
  · have hstep : (moveLayer st movedId target).1 =
        setPriority (setPriority st movedId 999) movedId target := by
      rw [moveLayer_fst, if_neg (by omega), if_neg (by omega)]
    rw [hstep]
    have hid : setPriority st movedId 999 = (setPriority st movedId 999).map id := by
      rw [List.map_id]
    rw [hid]
    apply hfinal id (fun l => rfl)
    intro l hl hidl
    have hne := huniquePrio l hl hidl
    rw [hgp] at hc ⊢
    unfold prioShift
    split_ifs <;> first | rfl | omega
  · have hstep : (moveLayer st movedId target).1 =
        setPriority ((setPriority st movedId 999).map
          (shiftDownLayer target (getPriority st movedId))) movedId target := by
      rw [moveLayer_fst, if_neg (by omega), if_pos hc, runSteps_fst,
        foldl_applyToLayer_eq_map _ (shiftDownLayer_id target _) _ _ hidsnd]
      congr 1
      apply List.map_congr_left
      intro l hl
      rw [if_pos (hcov l hl)]
    rw [hstep]
    apply hfinal _ (shiftDownLayer_id target _)
    intro l hl hid
    have hne := huniquePrio l hl hid
    rw [hgp] at hc ⊢
    unfold shiftDownLayer prioShift
    split_ifs <;> first | rfl | omega

/-- `prioShift t p` maps `[0, n)` into `[0, n)` when `t, p < n`. -/
theorem prioShift_lt (t p n x : Nat) (ht : t < n) (hp : p < n) (hx : x < n) :
    prioShift t p x < n := by
  unfold prioShift
  split_ifs <;> omega

/-- `prioShift t p` is injective on `[0, n)`. -/
theorem prioShift_injOn (t p n : Nat) (ht : t < n) (hp : p < n) :
    ∀ x ∈ List.range n, ∀ y ∈ List.range n,
      prioShift t p x = prioShift t p y → x = y := by
  intro x hx y hy hxy
  rw [List.mem_range] at hx hy
  unfold prioShift at hxy
  split_ifs at hxy <;> omega

/-- Mapping `prioShift t p` over `range n` permutes `range n`. -/
theorem map_prioShift_perm (t p n : Nat) (ht : t < n) (hp : p < n) :
    ((List.range n).map (prioShift t p)).Perm (List.range n) := by
  have hnd : ((List.range n).map (prioShift t p)).Nodup :=
    List.Nodup.map_on (prioShift_injOn t p n ht hp) (List.nodup_range n)
  have hsub : (List.range n).map (prioShift t p) ⊆ List.range n := by
    intro y hy
    rw [List.mem_map] at hy
    obtain ⟨x, hx, rfl⟩ := hy
    rw [List.mem_range] at hx
    rw [List.mem_range]
    exact prioShift_lt t p n x ht hp hx
  have hsp := List.subperm_of_subset hnd hsub
  apply hsp.perm_of_length_le
  rw [List.length_map]

/-- Folding id-preserving per-id mutations never changes the id list. -/
theorem foldl_applyToLayer_layerIds (f : Layer → Layer) (hf : ∀ l, (f l).id = l.id) :
    ∀ (ids : List Nat) (st : List Layer),
      layerIds (ids.foldl (fun s lid => applyToLayer f lid s) st) = layerIds st := by
  intro ids
  induction ids with
  | nil => intro st; rfl
  | cons a rest ih =>
    intro st
    rw [List.foldl_cons, ih, applyToLayer_layerIds f hf]

/-- `setPriority` never changes the id list. -/
theorem setPriority_layerIds (st : List Layer) (lid p : Nat) :
    layerIds (setPriority st lid p) = layerIds st := by
  unfold setPriority
  exact applyToLayer_layerIds (fun l => { l with priority := p }) (fun l => rfl) lid st

/-- A completed `moveLayer` leaves the list of layer ids unchanged. -/
theorem moveLayer_layerIds (st : List Layer) (movedId target : Nat) :
    layerIds (moveLayer st movedId target).1 = layerIds st := by
  rw [moveLayer_fst, setPriority_layerIds]
  by_cases h1 : target < getPriority st movedId
  · rw [if_pos h1, runSteps_fst, foldl_applyToLayer_layerIds _ (shiftUpLayer_id target _),
      setPriority_layerIds]
  · rw [if_neg h1]
    by_cases h2 : getPriority st movedId < target
    · rw [if_pos h2, runSteps_fst, foldl_applyToLayer_layerIds _ (shiftDownLayer_id target _),
        setPriority_layerIds]
    · rw [if_neg h2]
      exact setPriority_layerIds st movedId 999

/-- One valid reorder preserves the "priorities are a permutation of
`0..n-1`" invariant. -/
theorem moveLayer_invariant (st : List Layer) (movedId target n : Nat)
    (hnd : (layerIds st).Nodup) (hmem : movedId ∈ layerIds st)
    (hperm : (prios st).Perm (List.range n)) (ht : target < n) :
    (prios (moveLayer st movedId target).1).Perm (List.range n) := by
  have hpnd : (prios st).Nodup := hperm.nodup_iff.mpr (List.nodup_range n)
  obtain ⟨l0, hl0, hl0id⟩ : ∃ l ∈ st, l.id = movedId := by
    unfold layerIds at hmem
    rw [List.mem_map] at hmem
    obtain ⟨l, hl, hid⟩ := hmem
    exact ⟨l, hl, hid⟩
  have hp : getPriority st movedId < n := by
    have h1 : getPriority st movedId = l0.priority := by
      rw [← hl0id]
      exact getPriority_eq st l0 hnd hl0
    have h2 : l0.priority ∈ prios st := List.mem_map.mpr ⟨l0, hl0, rfl⟩
    have h3 := hperm.mem_iff.mp h2
    rw [List.mem_range] at h3
    omega
  rw [prios_moveLayer st movedId target hnd hmem hpnd]
  exact (hperm.map _).trans (map_prioShift_perm target (getPriority st movedId) n ht hp)

/-- Claim C1 (amended): for every sequence of completed reorder operations
(`moveLayer` with a target priority in `[0, n-1]`) applied to a timeline
whose `n` layers hold priorities forming a permutation of `0..n-1`, the
priorities after the whole sequence — hence after each completed reorder,
every prefix being itself such a sequence — again form a permutation of
`0..n-1` with no duplicates.  (The claim's further assertion that no two
layers ever share a priority at intermediate steps DURING a reorder is
false; see the counterexample.) -/
theorem C1_reorder_permutation (st : List Layer) (n : Nat) (ops : List (Nat × Nat))
    (hnd : (layerIds st).Nodup) (hperm : (prios st).Perm (List.range n))
    (hops : ∀ op ∈ ops, op.1 ∈ layerIds st ∧ op.2 < n) :
    (prios (applyMoves st ops)).Perm (List.range n) := by
  induction ops generalizing st with
  | nil => exact hperm
  | cons op rest ih =>
    have hstep : applyMoves st (op :: rest) = applyMoves (moveLayer st op.1 op.2).1 rest := rfl
    rw [hstep]
    have hop := hops op (List.mem_cons_self op rest)
    apply ih
    · rw [moveLayer_layerIds]
      exact hnd
    · exact moveLayer_invariant st op.1 op.2 n hnd hop.1 hperm hop.2
    · intro op2 h2
      have := hops op2 (List.mem_cons_of_mem op h2)
      rw [moveLayer_layerIds]
      exact this

/-- Claim C1 witness: two layers with priorities `[0, 1]`, one reorder
moving layer 1 to priority 0; afterwards the priorities are again a
permutation of `0..1`. -/
theorem C1_reorder_permutation_witness :
    (prios (applyMoves [Layer.mk 0 0, Layer.mk 1 1] [(1, 0)])).Perm (List.range 2) :=
  C1_reorder_permutation [Layer.mk 0 0, Layer.mk 1 1] 2 [(1, 0)]
    (by decide) (by decide) (by decide)

/-- Claim C1 counterexample: in a 3-layer timeline with priorities
`[0, 1, 2]`, moving the layer of priority 2 to target priority 0 produces —
right after the first loop iteration of `moveLayer` — the intermediate
state `[⟨0, 1⟩, ⟨1, 1⟩, ⟨2, 999⟩]`, in which layers 0 and 1 SHARE priority
1; so the claim's "at no intermediate step during a reorder do two layers
share one priority value" is false, even though the final state `[1, 2, 0]`
is again a permutation. -/
theorem C1_counterexample :
    (moveLayer [Layer.mk 0 0, Layer.mk 1 1, Layer.mk 2 2] 2 0).2.getD 1 [] =
      [Layer.mk 0 1, Layer.mk 1 1, Layer.mk 2 999] ∧
    ¬(prios ((moveLayer [Layer.mk 0 0, Layer.mk 1 1, Layer.mk 2 2] 2 0).2.getD 1 [])).Nodup ∧
    prios (moveLayer [Layer.mk 0 0, Layer.mk 1 1, Layer.mk 2 2] 2 0).1 = [1, 2, 0] := by
  decide
